import Mathlib

/-!
Verification of the `awslambda-memory-tradeoff` benchmarker against its
specification.  The Python sources under `benchmarker/` are shallowly
embedded: dynamically-typed dictionaries become structures or association
lists, raised exceptions become `Except.error` values, and monetary floats
are represented exactly in integer units (nano-USD for the per-100ms price
table, micro-USD for costs rounded to 6 decimal places).  The Python
`round` builtin performs round-half-to-even, embedded here as `rheDiv`.
-/

namespace Benchmarker

/-! ## Integer arithmetic helpers for Python numeric builtins -/

/-- Half-to-even rounding of the fraction `x / m` for `m > 0`, the exact
semantics of the Python `round` builtin applied to `x / m`. -/
def rheDiv (x m : ℤ) : ℤ :=
  if 2 * (x % m) < m then x / m
  else if m < 2 * (x % m) then x / m + 1
  else if Even (x / m) then x / m else x / m + 1

/-- Embeds the Python expression `math.ceil(d / 100)` on an integer `d`. -/
def ceil100 (d : ℤ) : ℤ := -((-d) / 100)

/-! ## Sampler outcome (`Benchmark.get_execution_time` result dictionary)

The dictionary with keys `success`, `error`, `duration` and `cold_start`
produced by `get_execution_time` (benchmark.py lines 359-415). `duration`
is only meaningful when `success` is true. -/

structure SampleResult where
  success : Bool
  cold_start : Bool
  duration : ℤ
  error : Option String
  deriving Repr, DecidableEq

/-! ## Duration Collector (`Benchmark.get_benchmark_durations`, lines 287-323) -/

/-- Durations appended by one round of the collector loop: the body of the
`for future in concurrent.futures.as_completed(...)` loop (lines 306-310)
keeps the `duration` field of the invocation exactly when its `success`
field holds and its `cold_start` field does not. -/
def roundDurations (window : List SampleResult) : List ℤ :=
  (window.filter (fun s => s.success && !s.cold_start)).map (fun s => s.duration)

/-- Per-round accepted durations as described by the specification
(section 4.2): samples with `success=true AND cold_start=false` are kept,
"unless the cold-start-ignore policy is disabled, in which case all
successful durations are accepted".  Stated from the words of the spec for
comparison with `roundDurations`, which is what the code actually does. -/
def specRoundDurations (ignore_coldstart : Bool) (window : List SampleResult) : List ℤ :=
  if ignore_coldstart then
    (window.filter (fun s => s.success && !s.cold_start)).map (fun s => s.duration)
  else
    (window.filter (fun s => s.success)).map (fun s => s.duration)

/-- The `while len(durations) < self.test_count` loop of
`get_benchmark_durations` (lines 293-321).  Each iteration launches
`threads = min(max_threads, pending)` sampler calls (modelled by consuming
`threads` entries of the sample stream starting at `idx`), appends the
accepted durations of the round, and then either breaks (when
`runs >= max_runs` with `max_runs = test_count / max_threads + 5`,
a Python float comparison embedded via ℚ) or increments `runs`.
Returns the durations, the number of executed loop iterations, and the
index of the next unconsumed sample. -/
def collectLoop (tc mt : ℕ) (samples : ℕ → SampleResult)
    (idx : ℕ) (durations : List ℤ) (runs : ℕ) (rounds : ℕ) :
    List ℤ × ℕ × ℕ :=
  if durations.length < tc then
    let threads := min mt (tc - durations.length)
    let window := (List.range threads).map (fun i => samples (idx + i))
    let durations2 := durations ++ roundDurations window
    if (tc : ℚ) / (mt : ℚ) + 5 ≤ (runs : ℚ) then
      (durations2, rounds + 1, idx + threads)
    else
      collectLoop tc mt samples (idx + threads) durations2 (runs + 1) (rounds + 1)
  else
    (durations, rounds, idx)
  termination_by tc + 5 - runs
  decreasing_by
    rename_i hguard
    push_neg at hguard
    have hr : runs < tc + 5 := by
      rcases Nat.eq_zero_or_pos mt with h0 | hpos
      · rw [h0] at hguard
        norm_num at hguard
        omega
      · have hd : (tc : ℚ) / (mt : ℚ) ≤ (tc : ℚ) :=
          div_le_self (by positivity) (by exact_mod_cast hpos)
        have hq : (runs : ℚ) < (tc : ℚ) + 5 := by linarith
        exact_mod_cast hq
    omega

/-- Entry point of `get_benchmark_durations`: `max_runs = test_count /
max_threads + 5` raises `ZeroDivisionError` when `max_threads == 0`;
otherwise the loop starts from an empty duration list. -/
def get_benchmark_durations (tc mt : ℕ) (samples : ℕ → SampleResult) :
    Except String (List ℤ) :=
  if mt = 0 then .error "ZeroDivisionError: division by zero"
  else .ok (collectLoop tc mt samples 0 [] 0 0).1

/-! ## Cost Model (`utils.lambda_execution_cost`, utils.py lines 113-122) -/

/-- Error message raised by `lambda_execution_cost` when the memory size is
not a key of the price table (or its price is falsy). -/
def costNotFoundMsg (memory : ℤ) : String :=
  "Cost/100ms not found for memory size (" ++ toString memory ++ ")"

/-- Body of `lambda_execution_cost` given a price table (price in nano-USD
per 100ms, keyed by memory size): `cost_per_100ms = table.get(memory)`,
raise when falsy (absent or zero), otherwise return
`round(math.ceil(duration/100) * cost_per_100ms, 6)` — the result is in
micro-USD (a float with 6 decimal places scaled by 10^6).  A `None`
duration (Python would raise `TypeError` in `duration/100`) is an error. -/
def lambda_execution_cost_table (table : List (ℤ × ℤ)) (memory : ℤ)
    (duration : Option ℤ) : Except String ℤ :=
  match table.lookup memory with
  | none => .error (costNotFoundMsg memory)
  | some p =>
    if p = 0 then .error (costNotFoundMsg memory)
    else
      match duration with
      | none => .error "TypeError: unsupported operand type for /: NoneType and int"
      | some d => .ok (rheDiv (ceil100 d * p) 1000)

/-- The attribute `LAMBDA_COST_BY_MEMORY` that `utils.py` line 115 reads
from the `constants` module.  `constants.py` (lines 1-33) defines no such
name, so the attribute access itself raises `AttributeError`. -/
def LAMBDA_COST_BY_MEMORY : Option (List (ℤ × ℤ)) := none

/-- Message of the `AttributeError` raised by `c.LAMBDA_COST_BY_MEMORY`. -/
def attributeErrMsg : String :=
  "AttributeError: module constants has no attribute LAMBDA_COST_BY_MEMORY"

/-- Embeds `utils.lambda_execution_cost` as shipped: evaluating
`c.LAMBDA_COST_BY_MEMORY.get(memory)` first resolves the module attribute,
which fails because `LAMBDA_COST_BY_MEMORY` is absent from constants.py. -/
def lambda_execution_cost (memory : ℤ) (duration : Option ℤ) : Except String ℤ :=
  match LAMBDA_COST_BY_MEMORY with
  | none => .error attributeErrMsg
  | some table => lambda_execution_cost_table table memory duration

/-- Modelled from the spec: the per-memory price table
`LAMBDA_COST_BY_MEMORY` referenced by `utils.lambda_execution_cost` is
missing from `src/benchmarker/constants.py`.  The spec describes it as a
"static lookup of price-per-100ms-billing-unit by memory size" keyed by
exact memory value, following the AWS Lambda pricing page as of
March 25, 2019 (the disclaimer embedded in `process_benchmark_results`);
the repository tests pin three of its entries
(512 ↦ 0.000000834, 1600 ↦ 0.000002605, 3008 ↦ 0.000004897 USD/100ms).
Prices are recorded here in nano-USD per 100ms. -/
def LAMBDA_COST_BY_MEMORY_model : List (ℤ × ℤ) :=
  [(128, 208), (192, 313), (256, 417), (320, 521), (384, 625), (448, 729),
   (512, 834), (576, 938), (640, 1042), (704, 1146), (768, 1250),
   (832, 1354), (896, 1459), (960, 1563), (1024, 1667), (1088, 1771),
   (1152, 1875), (1216, 1980), (1280, 2084), (1344, 2188), (1408, 2292),
   (1472, 2396), (1536, 2501), (1600, 2605), (1664, 2709), (1728, 2813),
   (1792, 2917), (1856, 3021), (1920, 3126), (1984, 3230), (2048, 3334),
   (2112, 3438), (2176, 3542), (2240, 3646), (2304, 3751), (2368, 3855),
   (2432, 3959), (2496, 4063), (2560, 4168), (2624, 4272), (2688, 4376),
   (2752, 4480), (2816, 4584), (2880, 4688), (2944, 4793), (3008, 4897)]

/-- The Cost Model with the spec-modelled price table in place. -/
def lambda_execution_cost_model (memory : ℤ) (duration : Option ℤ) : Except String ℤ :=
  lambda_execution_cost_table LAMBDA_COST_BY_MEMORY_model memory duration

/-! ## Event validation (`utils.validate_event`, utils.py lines 17-29) -/

/-- The key whitelist `VALID_EVENT_ARGS` of constants.py lines 4-12. -/
def VALID_EVENT_ARGS : List String :=
  ["verbose", "ignore_coldstart", "test_count", "max_threads",
   "lambda_function", "lambda_event", "memory_sets"]

/-- Configuration fields recognized by the external request schema
according to the specification (section 6): the seven fields of
`VALID_EVENT_ARGS` plus `timeout`.  Stated from the words of the spec for
comparison with what `validate_event` actually accepts. -/
def specRecognizedEventFields : List String :=
  ["verbose", "ignore_coldstart", "test_count", "max_threads",
   "lambda_function", "lambda_event", "memory_sets", "timeout"]

/-- Embeds `validate_event`.  The event is `none` when the payload is not a
dict (failing the `type(event) is not dict` check); otherwise it is the
list of the dict keys.  Returns the `(valid, error)` pair. -/
def validate_event (eventKeys : Option (List String)) : Bool × Option String :=
  match eventKeys with
  | none => (false, some "Event payload input must be a dict")
  | some keys =>
    if keys.all (fun k => VALID_EVENT_ARGS.contains k) then (true, none)
    else (false, some ("Invalid event key, valid are " ++ String.intercalate ", " VALID_EVENT_ARGS))

/-! ## Memory sweep outcome (`Benchmark.benchmark_memory` result dictionary)

The dictionary with keys `memory`, `success`, `durations`,
`average_duration` and `errors` built by `benchmark_memory`
(benchmark.py lines 237-285).
`average_duration` is `None` until computed (and stays `None` on failure). -/

structure MemoryOutcome where
  memory : ℤ
  success : Bool
  durations : List ℤ
  average_duration : Option ℤ
  errors : List String
  deriving Repr, DecidableEq

/-! ## Result Aggregator (`Benchmark.process_benchmark_results`, lines 435-515)

Log records are Python dicts whose exact keys matter (one of them is the
misspelled `succcess`), so they are embedded as association lists from
key strings to a small value universe. -/

inductive LogVal where
  | bool (b : Bool)
  | int (n : ℤ)
  | strs (es : List String)
  | durInfo (average : Option ℤ) (all_invocations : List ℤ)
  | cost (micro : ℤ)
  deriving Repr, DecidableEq

/-- One record of the `logs` list of the report. -/
abbrev LogEntry := List (String × LogVal)

/-- Log record appended for a failed `MemoryOutcome` (lines 452-456). -/
def failLogEntry (b : MemoryOutcome) : LogEntry :=
  [("memory", .int b.memory), ("success", .bool false), ("errors", .strs b.errors)]

/-- Log record appended when the cost computation raised (lines 473-477). -/
def costFailLogEntry (b : MemoryOutcome) (err : String) : LogEntry :=
  [("memory", .int b.memory), ("success", .bool false), ("errors", .strs [err])]

/-- Detailed log record appended for a successful outcome whose cost was
computed (lines 494-502); its second key is the literal misspelling
`succcess` from the source, and no `success` key is present. -/
def detailLogEntry (b : MemoryOutcome) (cost : ℤ) : LogEntry :=
  [("memory", .int b.memory), ("succcess", .bool false),
   ("duration", .durInfo b.average_duration b.durations),
   ("execution_cost", .cost cost)]

/-- The log record `process_benchmark_results` appends for one outcome:
failure branch, cost-error branch, or detail branch. -/
def logEntryFor (cost : ℤ → Option ℤ → Except String ℤ) (b : MemoryOutcome) : LogEntry :=
  if b.success = false then failLogEntry b
  else
    match cost b.memory b.average_duration with
    | .error e => costFailLogEntry b e
    | .ok c => detailLogEntry b c

/-- The two static disclaimers of the `notes` field (lines 443-447). -/
def reportNotes : List String :=
  ["Lambda execution costs are in US$, following pricing page as of March 25, 2019 (https://aws.amazon.com/lambda/pricing)",
   "Lambda duration times are in milliseconds"]

/-- The `BenchmarkReport` dictionary: both rankings, logs and notes.
Cost-ranking rows are `(memory, cost in micro-USD)` pairs and
duration-ranking rows are `(memory, average_duration)` pairs, mirroring the
per-row dicts keyed by `memory` and `cost` / `memory` and `duration`. -/
structure Report where
  rankingCost : List (ℤ × ℤ)
  rankingDuration : List (ℤ × Option ℤ)
  logs : List LogEntry
  notes : List String
  deriving Repr, DecidableEq

/-- Loop body of `process_benchmark_results` for one outcome, threading the
accumulated cost rows, duration rows, logs, and public error strings.
Public errors are modelled by their message text (the
`type(error).__name__` prefix added by `append_public_error` is cosmetic
and not modelled).  The duration put in a ranking row is the
`average_duration` of the outcome, an integer for every outcome the sweep
produces. -/
def processStep (cost : ℤ → Option ℤ → Except String ℤ)
    (acc : List (ℤ × ℤ) × List (ℤ × Option ℤ) × List LogEntry × List String)
    (b : MemoryOutcome) :
    List (ℤ × ℤ) × List (ℤ × Option ℤ) × List LogEntry × List String :=
  let (costs, durs, logs, errs) := acc
  if b.success = false then
    (costs, durs, logs ++ [failLogEntry b], errs ++ b.errors)
  else
    match cost b.memory b.average_duration with
    | .error e => (costs, durs, logs ++ [costFailLogEntry b e], errs ++ [e])
    | .ok c =>
      (costs ++ [(b.memory, c)], durs ++ [(b.memory, b.average_duration)],
       logs ++ [detailLogEntry b c], errs)

/-- Embeds `process_benchmark_results` parametrically in the cost function
it calls (the source calls `lambda_execution_cost`; any exception from that
call is caught by the surrounding `try`).  After the loop, both rankings
are sorted ascending by their metric with the stable Python `sorted`
(`List.mergeSort`); a `none` duration sorts via `getD 0`, a case no sweep
outcome produces (`average_duration` is an integer whenever `success`).
Returns the report together with the public error strings collected via
`append_public_error`. -/
def process_benchmark_results_with (cost : ℤ → Option ℤ → Except String ℤ)
    (results : List MemoryOutcome) : Report × List String :=
  let (costs, durs, logs, errs) := results.foldl (processStep cost) ([], [], [], [])
  ({ rankingCost := costs.mergeSort (fun a b => a.2 ≤ b.2),
     rankingDuration := durs.mergeSort (fun a b => a.2.getD 0 ≤ b.2.getD 0),
     logs := logs,
     notes := reportNotes }, errs)

/-- `process_benchmark_results` as shipped, calling the shipped
`lambda_execution_cost`. -/
def process_benchmark_results (results : List MemoryOutcome) : Report × List String :=
  process_benchmark_results_with lambda_execution_cost results

/-! ## Session orchestration (`Benchmark.run`, lines 196-235)

The external Lambda API is abstracted by the outcome of each call; the
calls `run` issues are recorded in order as a trace. -/

/-- One call to the external Lambda client: `get_lambda_config`,
`update_lambda_config` (issued by `set_new_config`), or `invoke_lambda`. -/
inductive APICall where
  | getConfig
  | setConfig (memory : Option ℤ) (tout : Option ℤ)
  | invoke
  deriving Repr, DecidableEq

/-- Outcome of the `get_lambda_config` call made by
`store_original_config`: the call raised, or returned a response that
fails/passes the `is_lambda_response_success` check (`Memory` and
`Timeout` keys both present). -/
inductive GetConfigResult where
  | raised (e : String)
  | response (validKeys : Bool) (memory tout : ℤ)
  deriving Repr, DecidableEq

/-- The result dictionary of `store_original_config` (lines 119-170). -/
structure StoreResult where
  memory : Option ℤ
  tout : Option ℤ
  error : Option String
  deriving Repr, DecidableEq

/-- Error message of the `StoreOriginalConfigError` built when the config
response is invalid (lines 140-143). -/
def invalidConfigMsg : String :=
  "Invalid configuration parameters returned for Lambda"

/-- Error message of the `StoreOriginalConfigError` built when
`get_lambda_config` raised (lines 160-163). -/
def storeRaisedMsg : String :=
  "Could not get original configuration for Lambda"

/-- Embeds `store_original_config`: one `get_lambda_config` call; an
exception or an invalid response populates the `error` entry, otherwise the
original memory and timeout are recorded. -/
def store_original_config (g : GetConfigResult) : StoreResult × List APICall :=
  match g with
  | .raised _ => ({ memory := none, tout := none, error := some storeRaisedMsg }, [.getConfig])
  | .response validKeys m t =>
    if validKeys then
      ({ memory := some m, tout := some t, error := none }, [.getConfig])
    else
      ({ memory := none, tout := none, error := some invalidConfigMsg }, [.getConfig])

/-- Environment of one `run`: what the external client answers.
`sweepSetOk memory` is the success of the `set_new_config` call for that
memory value, `restoreSetOk` the success of the restoring call, and
`samples memory` the stream of sampler outcomes for that memory value. -/
structure RunEnv where
  getConfig : GetConfigResult
  sweepSetOk : ℤ → Bool
  restoreSetOk : Bool
  samples : ℤ → ℕ → SampleResult

/-- Error message recorded by `benchmark_memory` when `set_new_config`
fails for a memory value (`SetLambdaMemoryError`, lines 349-352). -/
def setMemoryErrMsg (memory : ℤ) : String :=
  "Cannot allocate new memory size (" ++ toString memory ++ " mb) to function"

/-- Error message of the `InvokeLambdaError` built when no durations were
collected (lines 268-271). -/
def noDurationsMsg (memory : ℤ) : String :=
  "No durations were returned from invocations of Lambda with memory " ++ toString memory

/-- Embeds `benchmark_memory` (lines 237-285): one `set_new_config` call
(always issued first); on failure the outcome fails with no invocation.
Otherwise the Duration Collector runs (consuming one `invoke` per sampler
call) and the outcome fails when it returned no durations, else succeeds
with `average_duration = round(sum(durations) / len(durations))`
(half-to-even rounding, `rheDiv`). -/
def benchmark_memory (env : RunEnv) (tc mt : ℕ) (tout : ℤ) (memory : ℤ) :
    MemoryOutcome × List APICall :=
  if env.sweepSetOk memory = false then
    ({ memory := memory, success := false, durations := [],
       average_duration := none, errors := [setMemoryErrMsg memory] },
     [.setConfig (some memory) (some tout)])
  else
    let (ds, _, used) := collectLoop tc mt (env.samples memory) 0 [] 0 0
    let calls := .setConfig (some memory) (some tout) :: List.replicate used .invoke
    if ds.length = 0 then
      ({ memory := memory, success := false, durations := ds,
         average_duration := none, errors := [noDurationsMsg memory] }, calls)
    else
      ({ memory := memory, success := true, durations := ds,
         average_duration := some (rheDiv ds.sum ds.length), errors := [] }, calls)

/-- Message of the `RestoreOriginalConfigError` appended to the public
errors when restoring the original configuration fails (lines 224-227). -/
def restoreErrMsg : String :=
  "Cannot restore Lambda original configurations"

/-- Embeds `Benchmark.run` (lines 196-235): store the original config and
raise its error if any (before any `set_config` is issued); otherwise
benchmark every memory value sequentially, aggregate with
`process_benchmark_results`, then attempt the restore unconditionally —
a restore failure only appends a public error.  Returns the raised error
or the produced report, the full trace of external calls in order, and the
final `public_errors` list. -/
def run (env : RunEnv) (tc mt : ℕ) (tout : ℤ) (memory_sets : List ℤ) :
    Except String Report × List APICall × List String :=
  let (store, storeCalls) := store_original_config env.getConfig
  match store.error with
  | some e => (.error e, storeCalls, [])
  | none =>
    let pairs := memory_sets.map (benchmark_memory env tc mt tout)
    let outcomes := pairs.map (fun p => p.1)
    let sweepCalls := (pairs.map (fun p => p.2)).flatten
    let (report, procErrs) := process_benchmark_results outcomes
    let restoreCalls := [APICall.setConfig store.memory store.tout]
    let errs := if env.restoreSetOk then procErrs else procErrs ++ [restoreErrMsg]
    (.ok report, storeCalls ++ sweepCalls ++ restoreCalls, errs)

/-! ## Helper descriptions of the aggregator output (proof-side only) -/

/-- Rows of the (unsorted) cost ranking: one per successful outcome whose
cost computation succeeded. -/
def costRows (cost : ℤ → Option ℤ → Except String ℤ) (results : List MemoryOutcome) :
    List (ℤ × ℤ) :=
  results.filterMap (fun b =>
    if b.success = true then
      match cost b.memory b.average_duration with
      | .ok c => some (b.memory, c)
      | .error _ => none
    else none)

/-- Rows of the (unsorted) duration ranking. -/
def durRows (cost : ℤ → Option ℤ → Except String ℤ) (results : List MemoryOutcome) :
    List (ℤ × Option ℤ) :=
  results.filterMap (fun b =>
    if b.success = true then
      match cost b.memory b.average_duration with
      | .ok _ => some (b.memory, b.average_duration)
      | .error _ => none
    else none)

/-- Public error strings collected by the aggregator loop. -/
def pubErrsOf (cost : ℤ → Option ℤ → Except String ℤ) (results : List MemoryOutcome) :
    List String :=
  results.flatMap (fun b =>
    if b.success = false then b.errors
    else
      match cost b.memory b.average_duration with
      | .error e => [e]
      | .ok _ => [])

/-- Recognizer for `update_lambda_config` calls in a trace. -/
def isSetConfig : APICall → Bool
  | .setConfig _ _ => true
  | _ => false

/-! ## Lemmas on the rounding helpers -/

lemma rheDiv_le (x m : ℤ) : x / m ≤ rheDiv x m ∧ rheDiv x m ≤ x / m + 1 := by
  unfold rheDiv
  split_ifs <;> omega

lemma rheDiv_mono {m : ℤ} (hm : 0 < m) {x y : ℤ} (h : x ≤ y) :
    rheDiv x m ≤ rheDiv y m := by
  have hq : x / m ≤ y / m := Int.ediv_le_ediv hm h
  rcases eq_or_lt_of_le hq with heq | hlt
  · have hxx := Int.ediv_add_emod x m
    have hyy := Int.ediv_add_emod y m
    rw [← heq] at hyy
    have hr : x % m ≤ y % m := by omega
    unfold rheDiv
    rw [← heq]
    split_ifs <;> omega
  · have b1 := rheDiv_le x m
    have b2 := rheDiv_le y m
    omega

lemma ceil100_mono {x y : ℤ} (h : x ≤ y) : ceil100 x ≤ ceil100 y := by
  unfold ceil100
  have hd : (-y) / 100 ≤ (-x) / 100 := Int.ediv_le_ediv (by norm_num) (by omega)
  omega

/-! ## Lemmas on the spec-modelled price table -/

lemma lookup_pos_of_all {l : List (ℤ × ℤ)} (hl : ∀ x ∈ l, 0 < x.2) :
    ∀ {m p : ℤ}, l.lookup m = some p → 0 < p := by
  induction l with
  | nil => intro m p h; simp [List.lookup] at h
  | cons a rest ih =>
    intro m p h
    rw [List.lookup] at h
    cases hcond : (m == a.1) with
    | true =>
      rw [hcond] at h
      simp at h
      have := hl a (by simp)
      omega
    | false =>
      rw [hcond] at h
      exact ih (fun x hx => hl x (by simp [hx])) h

lemma model_lookup_pos {m p : ℤ} (h : LAMBDA_COST_BY_MEMORY_model.lookup m = some p) :
    0 < p :=
  lookup_pos_of_all (by decide) h

/-- C1: for every memory value in the price table and every integer
duration, the Cost Model returns the price-per-100ms multiplied by the
duration rounded up to the nearest 100ms billing unit, half-even-rounded to
6 decimal places (micro-USD); it is monotonically non-decreasing in
duration for fixed memory, `cost(512, 100) == cost(512, 1)` and
`cost(512, 101) > cost(512, 100)`; and a memory value absent from the
price table is a hard error. -/
theorem cost_model_C1 :
    (∀ m p d, LAMBDA_COST_BY_MEMORY_model.lookup m = some p →
      lambda_execution_cost_model m (some d) = .ok (rheDiv (ceil100 d * p) 1000))
    ∧ (∀ m d d' c c', d ≤ d' →
      lambda_execution_cost_model m (some d) = .ok c →
      lambda_execution_cost_model m (some d') = .ok c' → c ≤ c')
    ∧ lambda_execution_cost_model 512 (some 100) = lambda_execution_cost_model 512 (some 1)
    ∧ (∃ c c', lambda_execution_cost_model 512 (some 100) = .ok c ∧
      lambda_execution_cost_model 512 (some 101) = .ok c' ∧ c < c')
    ∧ (∀ m d, LAMBDA_COST_BY_MEMORY_model.lookup m = none →
      lambda_execution_cost_model m d = .error (costNotFoundMsg m)) := by
  refine ⟨?_, ?_, ?_, ?_, ?_⟩
  · intro m p d hl
    have hp := model_lookup_pos hl
    unfold lambda_execution_cost_model lambda_execution_cost_table
    rw [hl]
    simp [hp.ne']
  · intro m d d' c c' hdd h1 h2
    unfold lambda_execution_cost_model lambda_execution_cost_table at h1 h2
    rcases hl : LAMBDA_COST_BY_MEMORY_model.lookup m with _ | p
    · rw [hl] at h1
      simp at h1
    · rw [hl] at h1 h2
      have hp := model_lookup_pos hl
      simp [hp.ne'] at h1 h2
      subst h1
      subst h2
      exact rheDiv_mono (by norm_num)
        (mul_le_mul_of_nonneg_right (ceil100_mono hdd) hp.le)
  · rfl
  · exact ⟨1, 2, rfl, rfl, by decide⟩
  · intro m d hl
    unfold lambda_execution_cost_model lambda_execution_cost_table
    rw [hl]

/-- Witness for `cost_model_C1` at memory 512 and duration 250 ms:
three 100ms billing units at 0.000000834 USD each round to 0.000003 USD. -/
theorem cost_model_C1_witness :
    lambda_execution_cost_model 512 (some 250) = .ok (rheDiv (ceil100 250 * 834) 1000) :=
  cost_model_C1.1 512 834 250 (by decide)

/-! ## Characterization of the aggregator loop -/

lemma foldl_processStep (cost : ℤ → Option ℤ → Except String ℤ) :
    ∀ (results : List MemoryOutcome) (cs : List (ℤ × ℤ)) (ds : List (ℤ × Option ℤ))
      (ls : List LogEntry) (es : List String),
      results.foldl (processStep cost) (cs, ds, ls, es) =
        (cs ++ costRows cost results, ds ++ durRows cost results,
         ls ++ results.map (logEntryFor cost), es ++ pubErrsOf cost results) := by
  intro results
  induction results with
  | nil => intro cs ds ls es; simp [costRows, durRows, pubErrsOf]
  | cons b rest ih =>
    intro cs ds ls es
    rw [List.foldl_cons]
    cases hs : b.success with
    | false =>
      rw [show processStep cost (cs, ds, ls, es) b =
            (cs, ds, ls ++ [failLogEntry b], es ++ b.errors) by
          simp [processStep, hs]]
      rw [ih]
      simp [costRows, durRows, pubErrsOf, logEntryFor, hs]
    | true =>
      cases hc : cost b.memory b.average_duration with
      | error e =>
        rw [show processStep cost (cs, ds, ls, es) b =
              (cs, ds, ls ++ [costFailLogEntry b e], es ++ [e]) by
            simp [processStep, hs, hc]]
        rw [ih]
        simp [costRows, durRows, pubErrsOf, logEntryFor, hs, hc]
      | ok c =>
        rw [show processStep cost (cs, ds, ls, es) b =
              (cs ++ [(b.memory, c)], ds ++ [(b.memory, b.average_duration)],
               ls ++ [detailLogEntry b c], es) by
            simp [processStep, hs, hc]]
        rw [ih]
        simp [costRows, durRows, pubErrsOf, logEntryFor, hs, hc]

lemma process_eq (cost : ℤ → Option ℤ → Except String ℤ) (results : List MemoryOutcome) :
    process_benchmark_results_with cost results =
      ({ rankingCost := (costRows cost results).mergeSort (fun a b => decide (a.2 ≤ b.2)),
         rankingDuration :=
           (durRows cost results).mergeSort (fun a b => decide (a.2.getD 0 ≤ b.2.getD 0)),
         logs := results.map (logEntryFor cost),
         notes := reportNotes }, pubErrsOf cost results) := by
  unfold process_benchmark_results_with
  rw [foldl_processStep]
  simp

/-- C2: as shipped, every call of the cost computation raises the
`AttributeError` for the missing `LAMBDA_COST_BY_MEMORY` constant, and
consequently `process_benchmark_results` always produces empty cost and
duration rankings, logging every successful outcome as a failure carrying
the cost error (and every failed outcome as its usual failure record). -/
theorem cost_always_raises_C2 :
    (∀ m d, lambda_execution_cost m d = .error attributeErrMsg)
    ∧ (∀ results : List MemoryOutcome,
        (process_benchmark_results results).1.rankingCost = []
        ∧ (process_benchmark_results results).1.rankingDuration = []
        ∧ (process_benchmark_results results).1.logs =
            results.map (fun b =>
              if b.success = true then costFailLogEntry b attributeErrMsg
              else failLogEntry b)) := by
  constructor
  · intro m d; rfl
  · intro results
    unfold process_benchmark_results
    rw [process_eq]
    refine ⟨?_, ?_, ?_⟩
    · have hc : costRows lambda_execution_cost results = [] := by
        simp [costRows, lambda_execution_cost, LAMBDA_COST_BY_MEMORY]
      simp [hc]
    · have hd : durRows lambda_execution_cost results = [] := by
        simp [durRows, lambda_execution_cost, LAMBDA_COST_BY_MEMORY]
      simp [hd]
    · apply List.map_congr_left
      intro b _
      cases hs : b.success with
      | false => simp [logEntryFor, hs]
      | true => simp [logEntryFor, hs, lambda_execution_cost, LAMBDA_COST_BY_MEMORY]

/-- C9 counterexample: an event consisting solely of the spec-recognized
key `timeout` is rejected by `validate_event`, refuting the claim that
every event whose keys all belong to the eight recognized fields is
accepted. -/
theorem validate_event_C9_counterexample :
    "timeout" ∈ specRecognizedEventFields
    ∧ (["timeout"].all (fun k => specRecognizedEventFields.contains k)) = true
    ∧ (validate_event (some ["timeout"])).1 = false := by
  refine ⟨by decide, by decide, by decide⟩

/-- C9 (amended): `validate_event` accepts a dict event exactly when every
key belongs to the seven whitelisted fields of `VALID_EVENT_ARGS` —
`verbose`, `ignore_coldstart`, `test_count`, `max_threads`,
`lambda_function`, `lambda_event`, `memory_sets`; `timeout` is not
recognized, and a non-dict payload is rejected. -/
theorem validate_event_C9_amended :
    (∀ keys, (validate_event (some keys)).1 = true ↔ ∀ k ∈ keys, k ∈ VALID_EVENT_ARGS)
    ∧ "timeout" ∉ VALID_EVENT_ARGS
    ∧ (validate_event none).1 = false := by
  refine ⟨?_, by decide, rfl⟩
  intro keys
  simp only [validate_event]
  split_ifs with h
  · simpa using h
  · simpa using h

/-- Witness for `validate_event_C9_amended`: an event with the single key
`verbose` is accepted. -/
theorem validate_event_C9_witness :
    (validate_event (some ["verbose"])).1 = true :=
  (validate_event_C9_amended.1 ["verbose"]).mpr (by decide)

lemma logEntryFor_memory (cost : ℤ → Option ℤ → Except String ℤ) (b : MemoryOutcome) :
    (logEntryFor cost b).lookup "memory" = some (.int b.memory) := by
  unfold logEntryFor
  split_ifs with h
  · rfl
  · cases hc : cost b.memory b.average_duration with
    | error e => rfl
    | ok c => rfl

lemma mem_costRows_iff (cost : ℤ → Option ℤ → Except String ℤ)
    (results : List MemoryOutcome) (m : ℤ) :
    m ∈ (costRows cost results).map (fun r => r.1) ↔
      ∃ b ∈ results, b.memory = m ∧ b.success = true
        ∧ (cost b.memory b.average_duration).isOk = true := by
  constructor
  · intro hm
    rcases List.mem_map.mp hm with ⟨r, hr, hm1⟩
    rcases List.mem_filterMap.mp hr with ⟨b, hb, hf⟩
    by_cases hs : b.success = true
    · rw [if_pos hs] at hf
      cases hc : cost b.memory b.average_duration with
      | error e => rw [hc] at hf; simp at hf
      | ok c =>
        rw [hc] at hf
        simp at hf
        exact ⟨b, hb, by rw [← hm1, ← hf], hs, by rw [hc]; rfl⟩
    · rw [if_neg hs] at hf
      simp at hf
  · rintro ⟨b, hb, hmem, hs, hok⟩
    cases hc : cost b.memory b.average_duration with
    | error e => rw [hc] at hok; simp [Except.isOk, Except.toBool] at hok
    | ok c =>
      refine List.mem_map.mpr ⟨(b.memory, c), List.mem_filterMap.mpr ⟨b, hb, ?_⟩, hmem⟩
      rw [if_pos hs, hc]

lemma mem_durRows_iff (cost : ℤ → Option ℤ → Except String ℤ)
    (results : List MemoryOutcome) (m : ℤ) :
    m ∈ (durRows cost results).map (fun r => r.1) ↔
      ∃ b ∈ results, b.memory = m ∧ b.success = true
        ∧ (cost b.memory b.average_duration).isOk = true := by
  constructor
  · intro hm
    rcases List.mem_map.mp hm with ⟨r, hr, hm1⟩
    rcases List.mem_filterMap.mp hr with ⟨b, hb, hf⟩
    by_cases hs : b.success = true
    · rw [if_pos hs] at hf
      cases hc : cost b.memory b.average_duration with
      | error e => rw [hc] at hf; simp at hf
      | ok c =>
        rw [hc] at hf
        simp at hf
        exact ⟨b, hb, by rw [← hm1, ← hf], hs, by rw [hc]; rfl⟩
    · rw [if_neg hs] at hf
      simp at hf
  · rintro ⟨b, hb, hmem, hs, hok⟩
    cases hc : cost b.memory b.average_duration with
    | error e => rw [hc] at hok; simp [Except.isOk, Except.toBool] at hok
    | ok c =>
      refine List.mem_map.mpr
        ⟨(b.memory, b.average_duration), List.mem_filterMap.mpr ⟨b, hb, ?_⟩, hmem⟩
      rw [if_pos hs, hc]

/-- C5: for outcomes with pairwise-distinct memory values, each input
memory value appears exactly once in the logs of the report; a memory value is
in the cost ranking iff it is in the duration ranking; and it is in the
rankings iff its outcome succeeded and its cost computation did not fail. -/
theorem process_results_C5 (cost : ℤ → Option ℤ → Except String ℤ)
    (results : List MemoryOutcome)
    (hnd : (results.map (fun b => b.memory)).Nodup) :
    (∀ m, m ∈ results.map (fun b => b.memory) →
      ((process_benchmark_results_with cost results).1.logs.countP
        (fun e => e.lookup "memory" == some (.int m))) = 1)
    ∧ (∀ m,
        m ∈ (process_benchmark_results_with cost results).1.rankingCost.map (fun r => r.1)
        ↔ m ∈ (process_benchmark_results_with cost results).1.rankingDuration.map (fun r => r.1))
    ∧ (∀ m,
        m ∈ (process_benchmark_results_with cost results).1.rankingCost.map (fun r => r.1)
        ↔ ∃ b ∈ results, b.memory = m ∧ b.success = true
            ∧ (cost b.memory b.average_duration).isOk = true) := by
  have hcostmem : ∀ m,
      m ∈ (process_benchmark_results_with cost results).1.rankingCost.map (fun r => r.1)
      ↔ m ∈ (costRows cost results).map (fun r => r.1) := by
    intro m
    rw [process_eq]
    exact ((List.mergeSort_perm (costRows cost results) _).map (fun r => r.1)).mem_iff
  have hdurmem : ∀ m,
      m ∈ (process_benchmark_results_with cost results).1.rankingDuration.map (fun r => r.1)
      ↔ m ∈ (durRows cost results).map (fun r => r.1) := by
    intro m
    rw [process_eq]
    exact ((List.mergeSort_perm (durRows cost results) _).map (fun r => r.1)).mem_iff
  refine ⟨?_, ?_, ?_⟩
  · intro m hm
    rw [process_eq]
    show ((results.map (logEntryFor cost)).countP
      (fun e => e.lookup "memory" == some (.int m))) = 1
    rw [List.countP_map]
    have hcong : ∀ b ∈ results,
        (((fun e => e.lookup "memory" == some (LogVal.int m)) ∘ logEntryFor cost) b = true
          ↔ ((fun x => x == m) ∘ (fun b : MemoryOutcome => b.memory)) b = true) := by
      intro b _
      show ((logEntryFor cost b).lookup "memory" == some (LogVal.int m)) = true
        ↔ (b.memory == m) = true
      rw [logEntryFor_memory]
      by_cases h : b.memory = m
      · simp [h]
      · simp [h]
    rw [List.countP_congr hcong, ← List.countP_map]
    have := List.count_eq_one_of_mem hnd hm
    simpa [List.count] using this
  · intro m
    rw [hcostmem, hdurmem, mem_costRows_iff, mem_durRows_iff]
  · intro m
    rw [hcostmem, mem_costRows_iff]

/-- A concrete successful outcome used by closed witnesses. -/
def exampleOutcome : MemoryOutcome :=
  { memory := 128, success := true, durations := [100],
    average_duration := some 100, errors := [] }

/-- A concrete always-succeeding cost function used by closed witnesses. -/
def exampleCost : ℤ → Option ℤ → Except String ℤ := fun _ _ => .ok 5

/-- Witness for `process_results_C5` on a one-outcome list. -/
theorem process_results_C5_witness :
    (128 : ℤ) ∈ (process_benchmark_results_with exampleCost
      [exampleOutcome]).1.rankingCost.map (fun r => r.1) :=
  ((process_results_C5 exampleCost [exampleOutcome] (by simp)).2.2 128).mpr
    ⟨exampleOutcome, by simp, rfl, rfl, rfl⟩

/-- C10: a successful outcome whose cost computation succeeded is logged
through the detailed record, which carries the misspelled key `succcess`
mapped to `False` and no `success` key at all; hence no record in the
logs of the report ever maps `success` to `True`. -/
theorem detail_log_C10 (cost : ℤ → Option ℤ → Except String ℤ)
    (results : List MemoryOutcome) (b : MemoryOutcome) (c : ℤ)
    (hb : b ∈ results) (hs : b.success = true)
    (hc : cost b.memory b.average_duration = .ok c) :
    detailLogEntry b c ∈ (process_benchmark_results_with cost results).1.logs
    ∧ (detailLogEntry b c).lookup "succcess" = some (.bool false)
    ∧ (detailLogEntry b c).lookup "success" = none
    ∧ (∀ e ∈ (process_benchmark_results_with cost results).1.logs,
        e.lookup "success" ≠ some (.bool true)) := by
  rw [process_eq]
  refine ⟨?_, rfl, rfl, ?_⟩
  · exact List.mem_map.mpr ⟨b, hb, by simp [logEntryFor, hs, hc]⟩
  · intro e he
    rcases List.mem_map.mp he with ⟨b', hb', rfl⟩
    unfold logEntryFor
    split_ifs with h
    · have hv : (failLogEntry b').lookup "success" = some (.bool false) := rfl
      rw [hv]
      simp
    · cases hc' : cost b'.memory b'.average_duration with
      | error e' =>
        have hv : (costFailLogEntry b' e').lookup "success" = some (.bool false) := rfl
        rw [hv]
        simp
      | ok c' =>
        have hv : (detailLogEntry b' c').lookup "success" = none := rfl
        rw [hv]
        simp

/-- Witness for `detail_log_C10` on a one-outcome list. -/
theorem detail_log_C10_witness :
    (detailLogEntry exampleOutcome 5).lookup "succcess" = some (.bool false)
    ∧ (detailLogEntry exampleOutcome 5).lookup "success" = none :=
  ⟨(detail_log_C10 exampleCost [exampleOutcome] exampleOutcome 5 (by simp) rfl rfl).2.1,
   (detail_log_C10 exampleCost [exampleOutcome] exampleOutcome 5 (by simp) rfl rfl).2.2.1⟩

/-! ## Lemmas on the Duration Collector loop -/

/-- The integer round threshold at which the float break test
`runs >= test_count / max_threads + 5` first fires. -/
def breakThreshold (tc mt : ℕ) : ℕ := (⌈(tc : ℚ) / (mt : ℚ)⌉).toNat + 5

lemma guard_iff (tc mt runs : ℕ) :
    ((tc : ℚ) / (mt : ℚ) + 5 ≤ (runs : ℚ)) ↔ breakThreshold tc mt ≤ runs := by
  unfold breakThreshold
  have hC : (0:ℤ) ≤ ⌈(tc : ℚ) / (mt : ℚ)⌉ := Int.ceil_nonneg (by positivity)
  have htn := Int.toNat_of_nonneg hC
  constructor
  · intro h
    have h2 : ⌈(tc : ℚ) / (mt : ℚ)⌉ ≤ (runs : ℤ) - 5 := by
      rw [Int.ceil_le]
      push_cast
      linarith
    omega
  · intro h
    have h2 : (⌈(tc : ℚ) / (mt : ℚ)⌉ : ℤ) + 5 ≤ (runs : ℤ) := by omega
    have h3 : ((⌈(tc : ℚ) / (mt : ℚ)⌉ : ℤ) : ℚ) + 5 ≤ ((runs : ℤ) : ℚ) := by
      exact_mod_cast h2
    have h4 := Int.le_ceil ((tc : ℚ) / (mt : ℚ))
    push_cast at h3
    linarith

lemma roundDurations_mem (window : List SampleResult) (d : ℤ) :
    d ∈ roundDurations window ↔
      ∃ s ∈ window, s.success = true ∧ s.cold_start = false ∧ s.duration = d := by
  simp [roundDurations, List.mem_map, List.mem_filter, and_assoc]

lemma collectLoop_length (tc mt : ℕ) (samples : ℕ → SampleResult) :
    ∀ idx ds runs rounds, ds.length ≤ tc →
      (collectLoop tc mt samples idx ds runs rounds).1.length ≤ tc := by
  intro idx ds runs rounds
  induction idx, ds, runs, rounds using collectLoop.induct tc mt samples with
  | case1 idx ds runs rounds hlen hguard =>
    intro _
    rw [collectLoop, if_pos hlen, if_pos hguard]
    have h1 : (roundDurations ((List.range (min mt (tc - ds.length))).map
        (fun i => samples (idx + i)))).length ≤ min mt (tc - ds.length) := by
      unfold roundDurations
      rw [List.length_map]
      calc (List.filter _ _).length
          ≤ ((List.range (min mt (tc - ds.length))).map (fun i => samples (idx + i))).length :=
            List.length_filter_le _ _
        _ = min mt (tc - ds.length) := by simp
    simp only [List.length_append]
    have h2 : min mt (tc - ds.length) ≤ tc - ds.length := min_le_right _ _
    omega
  | case2 idx ds runs rounds hlen threads window durations2 hguard ih =>
    intro _
    rw [collectLoop, if_pos hlen, if_neg hguard]
    refine ih ?_
    show (ds ++ roundDurations ((List.range (min mt (tc - ds.length))).map
      (fun i => samples (idx + i)))).length ≤ tc
    have h1 : (roundDurations ((List.range (min mt (tc - ds.length))).map
        (fun i => samples (idx + i)))).length ≤ min mt (tc - ds.length) := by
      unfold roundDurations
      rw [List.length_map]
      calc (List.filter _ _).length
          ≤ ((List.range (min mt (tc - ds.length))).map (fun i => samples (idx + i))).length :=
            List.length_filter_le _ _
        _ = min mt (tc - ds.length) := by simp
    simp only [List.length_append]
    have h2 : min mt (tc - ds.length) ≤ tc - ds.length := min_le_right _ _
    omega
  | case3 idx ds runs rounds hlen =>
    intro h
    rw [collectLoop, if_neg hlen]
    exact h

lemma collectLoop_rounds (tc mt : ℕ) (samples : ℕ → SampleResult) :
    ∀ idx ds runs rounds, runs ≤ breakThreshold tc mt →
      (collectLoop tc mt samples idx ds runs rounds).2.1
          ≤ rounds + (breakThreshold tc mt + 1 - runs)
      ∧ ((collectLoop tc mt samples idx ds runs rounds).1.length < tc →
          (collectLoop tc mt samples idx ds runs rounds).2.1
            = rounds + (breakThreshold tc mt + 1 - runs)) := by
  intro idx ds runs rounds
  induction idx, ds, runs, rounds using collectLoop.induct tc mt samples with
  | case1 idx ds runs rounds hlen hguard =>
    intro hrle
    have hge : breakThreshold tc mt ≤ runs := (guard_iff tc mt runs).mp hguard
    rw [collectLoop, if_pos hlen, if_pos hguard]
    constructor
    · show rounds + 1 ≤ rounds + (breakThreshold tc mt + 1 - runs)
      omega
    · intro _
      show rounds + 1 = rounds + (breakThreshold tc mt + 1 - runs)
      omega
  | case2 idx ds runs rounds hlen threads window durations2 hguard ih =>
    intro hrle
    have hlt : runs < breakThreshold tc mt := by
      rcases Nat.lt_or_ge runs (breakThreshold tc mt) with h | h
      · exact h
      · exact absurd ((guard_iff tc mt runs).mpr h) hguard
    rw [collectLoop, if_pos hlen, if_neg hguard]
    have hrec := ih (by omega)
    constructor
    · exact le_trans hrec.1 (by omega)
    · intro hl
      exact (hrec.2 hl).trans (by omega)
  | case3 idx ds runs rounds hlen =>
    intro hrle
    rw [collectLoop, if_neg hlen]
    refine ⟨?_, ?_⟩
    · show rounds ≤ rounds + (breakThreshold tc mt + 1 - runs)
      omega
    · intro hcon
      exact absurd (show ds.length < tc from hcon) hlen

lemma collectLoop_no_accept (tc mt : ℕ) (samples : ℕ → SampleResult)
    (h : ∀ i, (samples i).success = true → (samples i).cold_start = true) :
    ∀ idx ds runs rounds, (collectLoop tc mt samples idx ds runs rounds).1 = ds := by
  have hround : ∀ idx threads,
      roundDurations ((List.range threads).map (fun i => samples (idx + i))) = [] := by
    intro idx threads
    unfold roundDurations
    rw [List.filter_eq_nil_iff.mpr, List.map_nil]
    intro s hs
    rcases List.mem_map.mp hs with ⟨i, _, rfl⟩
    cases hsucc : (samples (idx + i)).success with
    | false => simp [hsucc]
    | true => simp [hsucc, h _ hsucc]
  intro idx ds runs rounds
  induction idx, ds, runs, rounds using collectLoop.induct tc mt samples with
  | case1 idx ds runs rounds hlen hguard =>
    rw [collectLoop, if_pos hlen, if_pos hguard]
    show ds ++ roundDurations _ = ds
    rw [hround, List.append_nil]
  | case2 idx ds runs rounds hlen threads window durations2 hguard ih =>
    rw [collectLoop, if_pos hlen, if_neg hguard]
    have hd2 : durations2 = ds := by
      show ds ++ roundDurations ((List.range (min mt (tc - ds.length))).map
        (fun i => samples (idx + i))) = ds
      rw [hround, List.append_nil]
    exact ih.trans hd2
  | case3 idx ds runs rounds hlen =>
    rw [collectLoop, if_neg hlen]

/-- C6: whatever the sampler returns, a duration list returned by
`get_benchmark_durations` never has more than `test_count` entries. -/
theorem collector_C6 (tc mt : ℕ) (samples : ℕ → SampleResult) (ds : List ℤ)
    (h : get_benchmark_durations tc mt samples = .ok ds) : ds.length ≤ tc := by
  unfold get_benchmark_durations at h
  split_ifs at h with h0
  injection h with h
  rw [← h]
  exact collectLoop_length tc mt samples 0 [] 0 0 (by simp)

/-- Witness for `collector_C6` at `test_count = 0`. -/
theorem collector_C6_witness :
    get_benchmark_durations 0 5 (fun _ => ⟨true, false, 7, none⟩) = .ok []
    ∧ ([] : List ℤ).length ≤ 0 := by
  have h : get_benchmark_durations 0 5 (fun _ => ⟨true, false, 7, none⟩) = .ok [] := by
    unfold get_benchmark_durations
    rw [if_neg (by decide), collectLoop, if_neg (by decide)]
  exact ⟨h, collector_C6 0 5 _ [] h⟩

/-- A sampler outcome that always fails (e.g. a transport error). -/
def failSample : SampleResult :=
  { success := false, cold_start := false, duration := 0, error := some "invoke error" }

/-- C4 counterexample: at `test_count = 1`, `max_threads = 1` with a
persistently failing target, the loop executes 7 rounds, exceeding the
claimed ceiling `ceil(1/1) + 5 = 6`. -/
theorem collector_C4_counterexample :
    (collectLoop 1 1 (fun _ => failSample) 0 [] 0 0).2.1 = 7
    ∧ ¬((collectLoop 1 1 (fun _ => failSample) 0 [] 0 0).2.1
        ≤ (⌈(1 : ℚ) / (1 : ℚ)⌉).toNat + 5) := by
  have hno := collectLoop_no_accept 1 1 (fun _ => failSample)
    (fun i h => by simp [failSample] at h) 0 [] 0 0
  have hB : breakThreshold 1 1 = 6 := by
    unfold breakThreshold
    norm_num
  have hr := (collectLoop_rounds 1 1 (fun _ => failSample) 0 [] 0 0 (by omega)).2
  have h7 : (collectLoop 1 1 (fun _ => failSample) 0 [] 0 0).2.1 = 7 := by
    rw [hr (by rw [hno]; decide), hB]
  refine ⟨h7, ?_⟩
  rw [h7]
  norm_num

/-- C4 (amended): with the float threshold `test_count / max_threads + 5`
and the post-round break check, the loop executes at most
`ceil(test_count / max_threads) + 6` rounds, and it returns fewer than
`test_count` durations exactly when the full `ceil(test_count /
max_threads) + 6` rounds were exhausted. -/
theorem collector_C4_amended (tc mt : ℕ) (samples : ℕ → SampleResult)
    (h1 : 1 ≤ tc) (h2 : 1 ≤ mt) :
    get_benchmark_durations tc mt samples = .ok (collectLoop tc mt samples 0 [] 0 0).1
    ∧ (collectLoop tc mt samples 0 [] 0 0).2.1 ≤ (⌈(tc : ℚ) / (mt : ℚ)⌉).toNat + 6
    ∧ ((collectLoop tc mt samples 0 [] 0 0).1.length < tc →
        (collectLoop tc mt samples 0 [] 0 0).2.1 = (⌈(tc : ℚ) / (mt : ℚ)⌉).toNat + 6) := by
  have hr := collectLoop_rounds tc mt samples 0 [] 0 0 (by omega)
  unfold breakThreshold at hr
  refine ⟨?_, ?_, ?_⟩
  · unfold get_benchmark_durations
    rw [if_neg (by omega)]
  · have := hr.1
    omega
  · intro hlen
    have := hr.2 hlen
    omega

/-- Witness for `collector_C4_amended` at `test_count = max_threads = 1`
with an always-failing sampler. -/
theorem collector_C4_amended_witness :
    (collectLoop 1 1 (fun _ => failSample) 0 [] 0 0).2.1
      ≤ (⌈(1 : ℚ) / (1 : ℚ)⌉).toNat + 6 :=
  (collector_C4_amended 1 1 (fun _ => failSample) (by decide) (by decide)).2.1

/-- A successful cold-start sampler outcome with duration 42 ms. -/
def coldSample : SampleResult :=
  { success := true, cold_start := true, duration := 42, error := none }

/-- C3: each collector round appends exactly the durations of samples with
`success=true` and `cold_start=false` — but unconditionally: the
`ignore_coldstart` attribute is never consulted, so with the policy
disabled the spec expects a successful cold-start duration (42 here) to be
accepted while the code (both the round filter and the whole collector)
still drops it. -/
theorem collector_C3 :
    (∀ window d, d ∈ roundDurations window ↔
      ∃ s ∈ window, s.success = true ∧ s.cold_start = false ∧ s.duration = d)
    ∧ roundDurations [coldSample] = []
    ∧ specRoundDurations false [coldSample] = [42]
    ∧ get_benchmark_durations 1 1 (fun _ => coldSample) = .ok [] := by
  refine ⟨roundDurations_mem, rfl, rfl, ?_⟩
  unfold get_benchmark_durations
  rw [if_neg (by decide),
    collectLoop_no_accept 1 1 (fun _ => coldSample) (fun i _ => rfl) 0 [] 0 0]

/-! ## Session orchestration claims -/

lemma store_original_config_calls (g : GetConfigResult) :
    (store_original_config g).2 = [.getConfig] := by
  cases g with
  | raised s => rfl
  | response v m t => cases v <;> rfl

/-- C7: when saving the original configuration fails, `run` raises that
error with no `update_lambda_config` call ever issued: no memory value is
benchmarked and no restore is attempted. -/
theorem run_C7 (env : RunEnv) (tc mt : ℕ) (tout : ℤ) (mems : List ℤ) (e : String)
    (h : (store_original_config env.getConfig).1.error = some e) :
    (run env tc mt tout mems).1 = .error e
    ∧ (run env tc mt tout mems).2.1.countP isSetConfig = 0 := by
  cases hg : env.getConfig with
  | raised s =>
    rw [hg] at h
    simp [store_original_config] at h
    unfold run
    rw [hg]
    simp [store_original_config, isSetConfig, h]
  | response v m t =>
    cases v with
    | true =>
      rw [hg] at h
      simp [store_original_config] at h
    | false =>
      rw [hg] at h
      simp [store_original_config] at h
      unfold run
      rw [hg]
      simp [store_original_config, isSetConfig, h]

/-- Environment whose original-configuration lookup raises. -/
def exampleEnvFail : RunEnv :=
  { getConfig := .raised "boom", sweepSetOk := fun _ => true,
    restoreSetOk := true, samples := fun _ _ => failSample }

/-- Witness for `run_C7`: with a raising config lookup, `run` rethrows the
store error having made zero `set_config` calls. -/
theorem run_C7_witness :
    (run exampleEnvFail 1 1 300000 [128]).1 = .error storeRaisedMsg
    ∧ (run exampleEnvFail 1 1 300000 [128]).2.1.countP isSetConfig = 0 :=
  run_C7 exampleEnvFail 1 1 300000 [128] storeRaisedMsg rfl

/-- C8: when the save step succeeds, `run` always returns the aggregated
report; the restoring `set_config` call (with the stored original memory
and timeout) is the last external call of the session regardless of how
many sweep steps failed; and a restore failure merely appends the
`RestoreOriginalConfigError` message to the public errors. -/
theorem run_C8 (env : RunEnv) (tc mt : ℕ) (tout : ℤ) (mems : List ℤ)
    (h : (store_original_config env.getConfig).1.error = none) :
    (run env tc mt tout mems).1 = .ok (process_benchmark_results
        ((mems.map (benchmark_memory env tc mt tout)).map (fun p => p.1))).1
    ∧ (run env tc mt tout mems).2.1.getLast? =
        some (.setConfig (store_original_config env.getConfig).1.memory
          (store_original_config env.getConfig).1.tout)
    ∧ (env.restoreSetOk = false →
        (run env tc mt tout mems).2.2 = (process_benchmark_results
          ((mems.map (benchmark_memory env tc mt tout)).map (fun p => p.1))).2
            ++ [restoreErrMsg]) := by
  unfold run
  rcases hsc : store_original_config env.getConfig with ⟨st, calls⟩
  rw [hsc] at h
  dsimp only at h ⊢
  rw [h]
  dsimp only
  rcases hp : process_benchmark_results
      ((mems.map (benchmark_memory env tc mt tout)).map (fun p => p.1)) with ⟨rep, perrs⟩
  refine ⟨rfl, ?_, ?_⟩
  · rw [List.getLast?_append]
    rfl
  · intro hres
    rw [hres]
    simp

/-- Environment with a valid config lookup, failing sweeps and a failing
restore. -/
def exampleEnvOk : RunEnv :=
  { getConfig := .response true 1024 300, sweepSetOk := fun _ => false,
    restoreSetOk := false, samples := fun _ _ => failSample }

/-- Witness for `run_C8`: despite a failing sweep and a failing restore,
`run` returns the report, the last call is the restoring `set_config`, and
the restore error is appended to the public errors. -/
theorem run_C8_witness :
    (run exampleEnvOk 1 1 300000 [128]).2.1.getLast? =
      some (.setConfig (store_original_config exampleEnvOk.getConfig).1.memory
        (store_original_config exampleEnvOk.getConfig).1.tout)
    ∧ (run exampleEnvOk 1 1 300000 [128]).2.2 = (process_benchmark_results
        (([128].map (benchmark_memory exampleEnvOk 1 1 300000)).map (fun p => p.1))).2
          ++ [restoreErrMsg] :=
  ⟨(run_C8 exampleEnvOk 1 1 300000 [128] rfl).2.1,
   (run_C8 exampleEnvOk 1 1 300000 [128] rfl).2.2 rfl⟩

end Benchmarker
